import Mathlib

/-!
Shallow embedding of the whisprd dictation pipeline:
`whisprd/command_processor.py`, `whisprd/whisper_transcriber.py` and
`dictation/dictation_engine.py`, together with theorems settling the
specification claims about them.

Strings are modelled as `List Char`, raw audio byte buffers as `List Nat`.
Python float constants that only enter comparisons against integer lengths
(`0.5`, `1.3`, `1.5`, and the configured durations) are modelled as exact
rationals; for the lengths reachable here the float and rational
comparisons agree.  The CPython regexes in the source are literal-phrase
word-boundary patterns; they are embedded directly over the ASCII fragment
(word characters = alphanumerics and underscore) that the configured
phrases and inputs use.
-/

namespace Whisprd

/-- Convert a Lean string literal to the `List Char` representation used
throughout the embedding. -/
def str (s : String) : List Char := s.data

/-- Python `str.isspace` class membership for the whitespace characters
recognised by `str.strip`, `str.split` and the regex class `\s`. -/
def pyIsSpace (c : Char) : Bool :=
  c = ' ' || c = '\t' || c = '\n' || c = '\x0d' || c = '\x0b' || c = '\x0c'

/-- Python `str.lower` on the ASCII fragment. -/
def lowerStr (l : List Char) : List Char := l.map Char.toLower

/-- Python `str.strip()`: drop leading and trailing whitespace. -/
def stripStr (l : List Char) : List Char :=
  ((l.dropWhile pyIsSpace).reverse.dropWhile pyIsSpace).reverse

/-- Helper for `pySplit`: accumulates the current word (reversed). -/
def pySplitAux : List Char → List Char → List (List Char)
  | cur, [] => if cur = [] then [] else [cur.reverse]
  | cur, c :: cs =>
    if pyIsSpace c then
      if cur = [] then pySplitAux [] cs else cur.reverse :: pySplitAux [] cs
    else pySplitAux (c :: cur) cs

/-- Python `str.split()` with no argument: split on whitespace runs,
discarding empty fields. -/
def pySplit (l : List Char) : List (List Char) := pySplitAux [] l

/-- Does the second list start with the first (Python `str.startswith`)? -/
def isPre : List Char → List Char → Bool
  | [], _ => true
  | _ :: _, [] => false
  | a :: as, b :: bs => a = b && isPre as bs

/-- Python substring containment `needle in haystack`. -/
def isSub (p : List Char) : List Char → Bool
  | [] => isPre p []
  | c :: ls => isPre p (c :: ls) || isSub p ls

/-- Helper for `collapseWs`: the Bool records whether the previous
character already emitted a space for the current whitespace run. -/
def collapseWsAux : Bool → List Char → List Char
  | _, [] => []
  | prevWs, c :: cs =>
    if pyIsSpace c then
      if prevWs then collapseWsAux true cs else ' ' :: collapseWsAux true cs
    else c :: collapseWsAux false cs

/-- The regex substitution `re.sub(r'\s+', ' ', s)`: every maximal
whitespace run becomes a single space. -/
def collapseWs (l : List Char) : List Char := collapseWsAux false l

/-- Word characters of the regex class `\w` on the ASCII fragment. -/
def isWordChar (c : Char) : Bool := c.isAlphanum || c = '_'

/-- Does the literal pattern `\b pat \b` match `txt` at offset `i`?
A word boundary holds when exactly one side of the position is a word
character (out-of-range counts as non-word). -/
def matchAt (pat txt : List Char) (i : Nat) : Bool :=
  ((txt.drop i).take pat.length = pat) &&
  (match pat.head?, (txt.take i).getLast? with
   | some pc, some tc => !(isWordChar pc && isWordChar tc)
   | _, _ => true) &&
  (match pat.getLast?, (txt.drop (i + pat.length)).head? with
   | some pc, some tc => !(isWordChar pc && isWordChar tc)
   | _, _ => true)

/-- Fuel-driven scan implementing `re.finditer` for a literal
word-boundary pattern: leftmost matches, resuming after each match. -/
def findIterAux (pat txt : List Char) : Nat → Nat → List (Nat × Nat)
  | 0, _ => []
  | fuel + 1, i =>
    if i > txt.length then []
    else if matchAt pat txt i then
      (i, i + pat.length) :: findIterAux pat txt fuel (i + max pat.length 1)
    else findIterAux pat txt fuel (i + 1)

/-- All matches of `finditer` for the pattern `\b pat \b` over `txt`. -/
def findIter (pat txt : List Char) : List (Nat × Nat) :=
  findIterAux pat txt (txt.length + 1) 0

/-- Fuel-driven scan for an alternation pattern `\b(w1|w2|…)\b`:
at each offset the first alternative that matches wins. -/
def findAltIterAux (pats : List (List Char)) (txt : List Char) :
    Nat → Nat → List (List Char × Nat × Nat)
  | 0, _ => []
  | fuel + 1, i =>
    if i > txt.length then []
    else
      match pats.find? (fun p => matchAt p txt i) with
      | some p =>
        (p, i, i + p.length) :: findAltIterAux pats txt fuel (i + max p.length 1)
      | none => findAltIterAux pats txt fuel (i + 1)

/-- All matches of `finditer` for a word-boundary alternation over `txt`. -/
def findAltIter (pats : List (List Char)) (txt : List Char) :
    List (List Char × Nat × Nat) :=
  findAltIterAux pats txt (txt.length + 1) 0

/-- CommandMatch record of `command_processor.py` (confidence as an exact
rational). -/
structure CommandMatch where
  command : List Char
  action : List Char
  confidence : ℚ
  start_pos : Nat
  end_pos : Nat
deriving DecidableEq, Repr

/-- Configuration slice read by `CommandProcessor.__init__`, with the
source's defaults. -/
structure CmdConfig where
  commands : List (List Char × List Char)
  command_mode_word : List Char := str "computer"
  confidence_threshold : ℚ := mkRat 1 2
  auto_punctuation : Bool := true
  sentence_end_words : List (List Char) := [str "period", str "full stop", str "dot"]
  comma_words : List (List Char) := [str "comma", str "pause"]
  question_words : List (List Char) := [str "question mark", str "question"]

/-- One phrase's contribution inside `_find_commands_in_mode`: all
word-boundary occurrences of the lowercased phrase in the lowercased text. -/
def phraseMatches (phrase action text_lower : List Char) : List CommandMatch :=
  (findIter (lowerStr phrase) text_lower).map (fun se =>
    { command := phrase
      action := action
      confidence :=
        if (text_lower.drop se.1).take (se.2 - se.1) = lowerStr phrase then 1 else mkRat 4 5
      start_pos := se.1
      end_pos := se.2 })

/-- CommandProcessor._find_commands_in_mode: iterate the configured
phrase→action pairs in insertion order, skipping non-system `STOP_`
actions outside command mode. -/
def find_commands_in_mode (cfg : CmdConfig) (text_lower : List Char)
    (command_mode : Bool) : List CommandMatch :=
  cfg.commands.flatMap (fun pa =>
    if !command_mode && !(pa.2 = str "STOP_DICTATION") &&
        !(pa.2 = str "START_DICTATION") && isPre (str "STOP_") pa.2 then
      []
    else phraseMatches pa.1 pa.2 text_lower)

/-- One punctuation word group's matches with its fixed action. -/
def punctGroup (words : List (List Char)) (action : List Char)
    (text_lower : List Char) : List CommandMatch :=
  (findAltIter (words.map lowerStr) text_lower).map (fun m =>
    { command := m.1
      action := action
      confidence := mkRat 9 10
      start_pos := m.2.1
      end_pos := m.2.2 })

/-- CommandProcessor._find_punctuation_commands. -/
def find_punctuation_commands (cfg : CmdConfig) (text_lower : List Char) :
    List CommandMatch :=
  punctGroup cfg.sentence_end_words (str "KEY_DOT") text_lower ++
  punctGroup cfg.comma_words (str "KEY_COMMA") text_lower ++
  punctGroup cfg.question_words (str "KEY_QUESTION") text_lower

/-- Stable ascending insertion by `start_pos` (later elements go after
equal keys), matching Python's stable `list.sort`. -/
def insertAsc (m : CommandMatch) : List CommandMatch → List CommandMatch
  | [] => [m]
  | x :: xs =>
    if x.start_pos ≤ m.start_pos then x :: insertAsc m xs else m :: x :: xs

/-- Stable sort of matches by ascending `start_pos`. -/
def sortByStartAsc (ms : List CommandMatch) : List CommandMatch :=
  ms.foldl (fun acc m => insertAsc m acc) []

/-- Stable descending insertion by `start_pos`, matching Python's stable
`sorted(..., reverse=True)`. -/
def insertDesc (m : CommandMatch) : List CommandMatch → List CommandMatch
  | [] => [m]
  | x :: xs =>
    if m.start_pos ≤ x.start_pos then x :: insertDesc m xs else m :: x :: xs

/-- Stable sort of matches by descending `start_pos`. -/
def sortByStartDesc (ms : List CommandMatch) : List CommandMatch :=
  ms.foldl (fun acc m => insertDesc m acc) []

/-- CommandProcessor.process_text: confidence gate, command-mode
detection, phrase and punctuation scans, then a stable sort by start
offset.  (The source performs no overlap resolution.) -/
def process_text (cfg : CmdConfig) (text : List Char) (confidence : ℚ) :
    List CommandMatch :=
  if confidence < cfg.confidence_threshold then []
  else
    let text_lower := lowerStr text
    let ms :=
      if findIter (lowerStr cfg.command_mode_word) (lowerStr text) ≠ [] then
        find_commands_in_mode cfg text_lower true
      else
        find_commands_in_mode cfg text_lower false ++
        (if cfg.auto_punctuation then find_punctuation_commands cfg text_lower
         else [])
    sortByStartAsc ms

/-- Removal of one match's `[start_pos, end_pos)` span, as the Python
slicing `clean_text[:start] + clean_text[end:]`. -/
def removeSpan (t : List Char) (m : CommandMatch) : List Char :=
  t.take m.start_pos ++ t.drop m.end_pos

/-- CommandProcessor.extract_clean_text: verbatim for an empty match
list; otherwise remove spans in descending start order, collapse
whitespace runs and strip the ends. -/
def extract_clean_text (text : List Char) (ms : List CommandMatch) :
    List Char :=
  if ms = [] then text
  else
    stripStr (collapseWs ((sortByStartDesc ms).foldl removeSpan text))

/-- Normalisation used by `_is_new_content`: `text.lower().strip()`. -/
def normText (l : List Char) : List Char := stripStr (lowerStr l)

/-- Length of the word-by-word common run from the front of two word
lists (the `overlap_start` loop of `_is_new_content`). -/
def runStart : List (List Char) → List (List Char) → Nat
  | a :: as, b :: bs => if a = b then runStart as bs + 1 else 0
  | _, _ => 0

/-- Length of the word-by-word common run from the back of two word
lists (the `overlap_end` loop of `_is_new_content`). -/
def runEnd (nw lw : List (List Char)) : Nat := runStart nw.reverse lw.reverse

/-- Cardinality of `set(new_words) - set(last_words)`. -/
def uniqueCount (nw lw : List (List Char)) : Nat :=
  (nw.dedup.filter (fun w => !lw.contains w)).length

/-- Tail of `_is_new_content` after the edge-overlap checks: the
unique-words test, the 1.5× length test and the short-variation test,
reached by fall-through whether or not the word lists were non-empty. -/
def dedupTail (nn ln : List Char) (nw lw : List (List Char)) : Bool :=
  if 2 ≤ uniqueCount nw lw then true
  else if 2 * nn.length > 3 * ln.length then true
  else if nn ≠ ln then
    (if 3 < nn.length ∧ 3 < ln.length then true else false)
  else false

/-- WhisperTranscriber._is_new_content.  The float products
`len * 1.3`, `len * 1.5` and `len * 0.5` are modelled by the exact
integer comparisons `10·a > 13·b`, `2·a > 3·b` and `2·a > b`. -/
def is_new_content (new_text last_text : List Char) : Bool :=
  if last_text = [] then true
  else
    let nn := normText new_text
    let ln := normText last_text
    if nn = ln then false
    else if isSub nn ln then false
    else if isSub ln nn then decide (10 * nn.length > 13 * ln.length)
    else
      let nw := pySplit nn
      let lw := pySplit ln
      if 0 < nw.length ∧ 0 < lw.length then
        if 2 * runStart nw lw > nw.length then false
        else if 2 * runEnd nw lw > nw.length then false
        else dedupTail nn ln nw lw
      else dedupTail nn ln nw lw

/-- Specification-side rendering of deduplication rules 5–8, written
from the spec's words for the refinement claim C5: reject on a dominant
common prefix or suffix run, then accept on ≥ 2 new unique words, then
on a 1.5× length expansion, then on two distinct strings both longer
than 3 characters, else reject. -/
def dedupTailRules (new_text last_text : List Char) : Bool :=
  let nn := normText new_text
  let ln := normText last_text
  let nw := pySplit nn
  let lw := pySplit ln
  if 2 * runStart nw lw > nw.length then false
  else if 2 * runEnd nw lw > nw.length then false
  else if 2 ≤ uniqueCount nw lw then true
  else if 2 * nn.length > 3 * ln.length then true
  else if 3 < nn.length ∧ 3 < ln.length ∧ nn ≠ ln then true
  else false

/-- Configuration slice read at the top of `_transcription_loop`, with
the source's defaults (durations in seconds, as exact rationals). -/
structure TransConfig where
  pause_duration : ℚ := 1
  min_utterance_duration : ℚ := mkRat 7 10
  overlap_duration : ℚ := mkRat 1 5

/-- Python `int(16000 * 2 * q)` for a duration `q`: truncation toward
zero of the exact product, via integer arithmetic on the normalised
numerator and denominator. -/
def durBytes (q : ℚ) : ℤ := (32000 * q.num).tdiv q.den

/-- Byte count of the rolling silence window (`pause_duration` seconds). -/
def silBytes (cfg : TransConfig) : ℤ := durBytes cfg.pause_duration

/-- Byte count of the minimum utterance (`min_utterance_duration`). -/
def minBytes (cfg : TransConfig) : ℤ := durBytes cfg.min_utterance_duration

/-- Byte count of the retained overlap seed (`overlap_duration`). -/
def overlapBytes (cfg : TransConfig) : ℤ := durBytes cfg.overlap_duration

/-- Hard maximum buffer size: `int(16000 * 2 * 10)` bytes (10 seconds). -/
def maxBytes : ℤ := 320000

/-- Python slice `b[-k:]` for an integer `k` (note `b[-0:]` is all of
`b`, and a negative `-k` means an ordinary nonnegative start index). -/
def sliceNegFrom (b : List ℕ) (k : ℤ) : List ℕ :=
  if k ≤ 0 then b.drop (-k).toNat else b.drop (b.length - k.toNat)

/-- Python slice `b[:-m]` for a natural `m` (note `b[:-0] = b[:0] = []`). -/
def sliceToNeg (b : List ℕ) (m : ℕ) : List ℕ :=
  if m = 0 then [] else b.take (b.length - m)

/-- Mutable state of `_transcription_loop`: the utterance buffer, the
rolling silence window, and the last accepted transcription. -/
structure SegState where
  buffer : List ℕ
  silence : List ℕ
  last : List Char
deriving DecidableEq

/-- External collaborators of the loop: the RMS silence test over the
silence window and `_transcribe_audio` (the Whisper call), both treated
as black boxes per the spec's interface boundary. -/
structure SegOracle where
  isSilent : List ℕ → Bool
  transcribe : List ℕ → Option (List Char)

/-- One iteration of `_transcription_loop` when a chunk arrives, up to
and including the silence-boundary handling (lines 211–241): append the
chunk, trim the silence window, and on a silence boundary either submit
the buffer minus trailing silence and keep the overlap seed, or discard
a too-short buffer.  Returns the new state, the submitted audio
buffers, and the accepted transcriptions, in order. -/
def silencePhase (cfg : TransConfig) (or : SegOracle) (s : SegState)
    (chunk : List ℕ) : SegState × List (List ℕ) × List (List Char) :=
  let buffer1 := s.buffer ++ chunk
  let sil1 := s.silence ++ chunk
  let sil2 :=
    if (sil1.length : ℤ) > silBytes cfg then sliceNegFrom sil1 (silBytes cfg)
    else sil1
  if or.isSilent sil2 then
    if (buffer1.length : ℤ) > minBytes cfg then
      let utterance :=
        if buffer1.length > sil2.length then sliceToNeg buffer1 sil2.length
        else buffer1
      let buffer2 := sliceNegFrom buffer1 (overlapBytes cfg)
      if 0 < utterance.length then
        match or.transcribe utterance with
        | none => (⟨buffer2, [], s.last⟩, [utterance], [])
        | some r =>
          if stripStr r ≠ [] then
            if is_new_content (stripStr r) s.last then
              (⟨buffer2, [], stripStr r⟩, [utterance], [stripStr r])
            else if stripStr r ≠ s.last ∧ s.last.length < (stripStr r).length then
              (⟨buffer2, [], stripStr r⟩, [utterance], [stripStr r])
            else (⟨buffer2, [], s.last⟩, [utterance], [])
          else (⟨buffer2, [], s.last⟩, [utterance], [])
      else (⟨buffer2, [], s.last⟩, [], [])
    else (⟨[], [], s.last⟩, [], [])
  else (⟨buffer1, sil2, s.last⟩, [], [])

/-- Forced-flush check at the end of a chunk iteration (lines 242–250):
if the buffer now exceeds the hard maximum, submit the whole buffer,
apply the deduplication gate, and clear both buffers. -/
def flushPhase (or : SegOracle) (s : SegState) (subs : List (List ℕ))
    (emits : List (List Char)) : SegState × List (List ℕ) × List (List Char) :=
  if (s.buffer.length : ℤ) > maxBytes then
    match or.transcribe s.buffer with
    | none => (⟨[], [], s.last⟩, subs ++ [s.buffer], emits)
    | some r =>
      if stripStr r ≠ [] then
        if is_new_content (stripStr r) s.last then
          (⟨[], [], stripStr r⟩, subs ++ [s.buffer], emits ++ [stripStr r])
        else (⟨[], [], s.last⟩, subs ++ [s.buffer], emits)
      else (⟨[], [], s.last⟩, subs ++ [s.buffer], emits)
  else (s, subs, emits)

/-- One full chunk-arrival iteration of `_transcription_loop`: the
silence-boundary handling followed by the forced-flush check. -/
def feedStep (cfg : TransConfig) (or : SegOracle) (s : SegState)
    (chunk : List ℕ) : SegState × List (List ℕ) × List (List Char) :=
  let p := silencePhase cfg or s chunk
  flushPhase or p.1 p.2.1 p.2.2

/-- One read-timeout iteration of `_transcription_loop` (the
`queue.Empty` handler, lines 251–261): if the buffer is non-empty and
longer than the minimum, submit the whole buffer and apply the
deduplication gate; in every case clear both buffers. -/
def timeoutStep (cfg : TransConfig) (or : SegOracle) (s : SegState) :
    SegState × List (List ℕ) × List (List Char) :=
  if s.buffer ≠ [] ∧ (s.buffer.length : ℤ) > minBytes cfg then
    match or.transcribe s.buffer with
    | none => (⟨[], [], s.last⟩, [s.buffer], [])
    | some r =>
      if stripStr r ≠ [] then
        if is_new_content (stripStr r) s.last then
          (⟨[], [], stripStr r⟩, [s.buffer], [stripStr r])
        else (⟨[], [], s.last⟩, [s.buffer], [])
      else (⟨[], [], s.last⟩, [s.buffer], [])
  else (⟨[], [], s.last⟩, [], [])

/-- Observable state of a `DictationEngine`: the two state flags, the
is-initialised status of the component objects (None vs constructed),
the running flags of the audio capture and transcriber collaborators,
the statistics counters, and the last injected text. -/
structure Eng where
  running : Bool
  dictating : Bool
  componentsInit : Bool
  audioRec : Bool
  transRun : Bool
  initCount : ℕ
  errors : ℕ
  totalTranscriptions : ℕ
  totalCommands : ℕ
  totalChars : ℕ
  lastInjected : List Char
deriving DecidableEq

/-- State of a freshly constructed engine (`__init__`). -/
def initEng : Eng :=
  ⟨false, false, false, false, false, 0, 0, 0, 0, 0, []⟩

/-- DictationEngine.start: warn and return if already running, else
initialise the components, start the hotkey listener and main thread,
and set the running flag. -/
def engStart (e : Eng) : Eng :=
  if e.running then e
  else
    { e with componentsInit := true, initCount := e.initCount + 1,
             running := true }

/-- DictationEngine.stop_dictation: warn and return if not dictating,
else clear only the dictating flag — the commented-out source lines
deliberately leave audio capture and transcription running. -/
def engStopDict (e : Eng) : Eng :=
  if !e.dictating then e else { e with dictating := false }

/-- DictationEngine.stop: warn and return if not running, else stop
dictation first when active, clear the running flag and stop the
collaborator components. -/
def engStop (e : Eng) : Eng :=
  if !e.running then e
  else
    let e1 := if e.dictating then engStopDict e else e
    { e1 with running := false, audioRec := false, transRun := false }

/-- DictationEngine.start_dictation: warn and return if already
dictating; otherwise start audio capture and transcription and set the
dictating flag.  When the components were never initialised (engine
never started), `self.audio_capture` is `None`, so the call raises
before the flag is set, after counting the error; the Bool reports
whether an exception propagated.  There is no check of the running
flag. -/
def engStartDict (e : Eng) : Eng × Bool :=
  if e.dictating then (e, false)
  else if e.componentsInit then
    ({ e with dictating := true, audioRec := true, transRun := true }, false)
  else ({ e with errors := e.errors + 1 }, true)

/-- Control calls of the engine's public API covered by the claims. -/
inductive Op where
  | start
  | stop
  | startDict
  | stopDict
deriving DecidableEq

/-- Apply one control call; an exception from `start_dictation`
propagates to the caller but the engine object keeps its state. -/
def applyOp (e : Eng) : Op → Eng
  | Op.start => engStart e
  | Op.stop => engStop e
  | Op.startDict => (engStartDict e).1
  | Op.stopDict => engStopDict e

/-- Engine state after a sequence of control calls on a fresh engine. -/
def run (ops : List Op) : Eng := ops.foldl applyOp initEng

/-- Helper for `dropRepeats`: drop words equal (case-insensitively) to
the immediately preceding original word. -/
def dropRepeatsGo : List Char → List (List Char) → List (List Char)
  | _, [] => []
  | prev, w :: ws =>
    if lowerStr w = lowerStr prev then dropRepeatsGo w ws
    else w :: dropRepeatsGo w ws

/-- Removal of consecutive case-insensitive duplicate words in
`_clean_transcription_text` (each word is compared with `words[i-1]`). -/
def dropRepeats : List (List Char) → List (List Char)
  | [] => []
  | w :: ws => w :: dropRepeatsGo w ws

/-- Membership in the regex class `[.!?,]`. -/
def isPunct4 (c : Char) : Bool := c = '.' || c = '!' || c = '?' || c = ','

/-- The regex substitution `re.sub(r'([.!?,])([A-Za-z])', r'\1 \2', s)`:
insert a space between a punctuation character and a following letter. -/
def insertSpacePunct : List Char → List Char
  | a :: b :: rest =>
    if isPunct4 a && b.isAlpha then a :: ' ' :: insertSpacePunct (b :: rest)
    else a :: insertSpacePunct (b :: rest)
  | l => l

/-- Helper for `collapsePunct` carrying the previous character. -/
def collapsePunctAux : Char → List Char → List Char
  | _, [] => []
  | prev, c :: cs =>
    if isPunct4 c && c = prev then collapsePunctAux prev cs
    else c :: collapsePunctAux c cs

/-- The regex substitution `re.sub(r'([.!?,])\1+', r'\1', s)`: collapse
runs of the same punctuation character. -/
def collapsePunct : List Char → List Char
  | [] => []
  | c :: cs => c :: collapsePunctAux c cs

/-- Python `" ".join(words)`. -/
def joinWords (ws : List (List Char)) : List Char :=
  (ws.intersperse (str " ")).flatten

/-- DictationEngine._clean_transcription_text: strip, normalise
spacing, drop repeated consecutive words, fix punctuation spacing and
doubling, reject fragments shorter than three characters, capitalise
the first letter, and append a final period after a trailing word. -/
def cleanTranscriptionText (t : List Char) : List Char :=
  if t = [] then []
  else
    let t1 := stripStr t
    let t2 := joinWords (pySplit t1)
    let ws := pySplit t2
    let t3 := if 1 < ws.length then joinWords (dropRepeats ws) else t2
    let t4 := insertSpacePunct t3
    let t5 := collapsePunct t4
    if (stripStr t5).length < 3 then []
    else
      let t6 :=
        match t5 with
        | [] => t5
        | c :: cs => if c.isAlpha then c.toUpper :: cs else t5
      let t7 :=
        if t6 ≠ [] &&
            !(match t6.getLast? with
              | some c => c = '.' || c = '!' || c = '?' || c = ':' || c = ';'
              | none => false) then
          match (pySplit t6).getLast? with
          | some lw =>
            match lw.getLast? with
            | some c => if c.isAlpha then t6 ++ ['.'] else t6
            | none => t6
          | none => t6
        else t6
      stripStr t7

/-- DictationEngine._execute_command for one match's action: the two
dictation-toggle sentinels are intercepted by the engine (an exception
from `start_dictation` is caught here, counted, and skips the
command counter), other actions go to the keystroke injector when one
is configured; returns the updated state and the dispatched actions. -/
def execCmd (injectorPresent : Bool) (e : Eng) (action : List Char) :
    Eng × List (List Char) :=
  if action = str "STOP_DICTATION" then
    let e1 := engStopDict e
    ({ e1 with totalCommands := e1.totalCommands + 1 }, [])
  else if action = str "START_DICTATION" then
    let p := engStartDict e
    if p.2 then ({ p.1 with errors := p.1.errors + 1 }, [])
    else ({ p.1 with totalCommands := p.1.totalCommands + 1 }, [])
  else if injectorPresent then
    ({ e with totalCommands := e.totalCommands + 1 }, [action])
  else ({ e with totalCommands := e.totalCommands + 1 }, [])

/-- Sequential execution of all matches of one utterance, collecting
the dispatched injector actions in order. -/
def execAll (injectorPresent : Bool) (e : Eng) :
    List CommandMatch → Eng × List (List Char)
  | [] => (e, [])
  | m :: ms =>
    let p := execCmd injectorPresent e m.action
    let q := execAll injectorPresent p.1 ms
    (q.1, p.2 ++ q.2)

/-- Clean dictation text of one recognised-text event: the cleaned
transcription with all matched command spans removed. -/
def cleanOf (ccfg : CmdConfig) (text : List Char) : List Char :=
  extract_clean_text (cleanTranscriptionText text)
    (process_text ccfg (cleanTranscriptionText text) 1)

/-- Leading-space rule of the injection path: prepend a space when the
previously injected text is non-empty and does not end in a space. -/
def withLeadSpace (prev clean : List Char) : List Char :=
  if prev ≠ [] &&
      !(match prev.getLast? with
        | some c => c = ' '
        | none => false) then
    ' ' :: clean
  else clean

/-- DictationEngine._on_transcription: count the transcription, clean
the text, find command matches, extract clean text, execute every
command, and only when the dictating flag is set (as it stands after
command execution) inject the clean text — with a leading space when
the previously injected text did not end in whitespace — and add its
length to the character counter.  Returns the new state, the injected
texts, and the dispatched command actions. -/
def onTranscription (ccfg : CmdConfig) (injectorPresent : Bool) (e : Eng)
    (text : List Char) : Eng × List (List Char) × List (List Char) :=
  let e0 := { e with totalTranscriptions := e.totalTranscriptions + 1 }
  let cleaned := cleanTranscriptionText text
  let ms := process_text ccfg cleaned 1
  let clean := extract_clean_text cleaned ms
  let p := execAll injectorPresent e0 ms
  let e1 := p.1
  if e1.dictating && !clean.isEmpty && injectorPresent then
    let ct := withLeadSpace e1.lastInjected clean
    ({ e1 with lastInjected := ct, totalChars := e1.totalChars + ct.length },
     [ct], p.2)
  else (e1, [], p.2)

lemma isPre_nil_left (l : List Char) : isPre [] l = true := by
  cases l <;> rfl

lemma isSub_nil_left (l : List Char) : isSub [] l = true := by
  induction l with
  | nil => rfl
  | cons c cs ih => simp [isSub, isPre_nil_left]

lemma isPre_self (l : List Char) : isPre l l = true := by
  induction l with
  | nil => rfl
  | cons c cs ih => simp [isPre, ih]

lemma isSub_self (l : List Char) : isSub l l = true := by
  cases l with
  | nil => rfl
  | cons c cs => simp [isSub, isPre_self]

lemma isPre_length_le {p l : List Char} (h : isPre p l = true) :
    p.length ≤ l.length := by
  induction p generalizing l with
  | nil => simp
  | cons a as ih =>
    cases l with
    | nil => simp [isPre] at h
    | cons b bs =>
      simp only [isPre, Bool.and_eq_true, decide_eq_true_eq] at h
      simpa [List.length_cons] using Nat.succ_le_succ (ih h.2)

lemma isSub_length_le {p l : List Char} (h : isSub p l = true) :
    p.length ≤ l.length := by
  induction l with
  | nil =>
    cases p with
    | nil => simp
    | cons a as => simp [isSub, isPre] at h
  | cons b bs ih =>
    simp only [isSub, Bool.or_eq_true] at h
    rcases h with h | h
    · exact isPre_length_le h
    · exact (ih h).trans (by simp)

lemma runStart_nil_left (lw : List (List Char)) : runStart [] lw = 0 := by
  cases lw <;> rfl

lemma runStart_nil_right (nw : List (List Char)) : runStart nw [] = 0 := by
  cases nw <;> rfl

lemma dedupTail_eq_rules (nn ln : List Char) (nw lw : List (List Char))
    (hne : nn ≠ ln) :
    dedupTail nn ln nw lw =
      (if 2 ≤ uniqueCount nw lw then true
       else if 2 * nn.length > 3 * ln.length then true
       else if 3 < nn.length ∧ 3 < ln.length ∧ nn ≠ ln then true
       else false) := by
  simp only [dedupTail]
  split_ifs <;> simp_all

/-- C4 counterexample: on the pair of empty strings, `new` equals
`last` yet `_is_new_content` returns True (the no-previous-text branch
fires first), contradicting the claim that equal inputs always yield
False and that the 1.3× rule governs whenever `last` is a substring of
`new`. -/
theorem is_new_content_empty_pair :
    is_new_content (str "") (str "") = true ∧
    ¬ (10 * (normText (str "")).length > 13 * (normText (str "")).length) := by
  exact ⟨rfl, by decide⟩

/-- C4, amended: provided `last` is non-empty, `_is_new_content`
returns False when the normalised texts are equal (hence on any
non-empty `x`, `is_new_content x x` is False), returns False when
normalised `new` is a substring of normalised `last`, and when
normalised `last` is a substring of normalised `new` returns True
exactly when `len(new) > 1.3 × len(last)` on the normalised lengths;
when `last` is empty it returns True unconditionally.  The claim's two
concrete examples hold. -/
theorem is_new_content_rules :
    (∀ new last : List Char, last ≠ [] → normText new = normText last →
      is_new_content new last = false) ∧
    (∀ new last : List Char, last ≠ [] →
      isSub (normText new) (normText last) = true →
      is_new_content new last = false) ∧
    (∀ new last : List Char, last ≠ [] →
      isSub (normText last) (normText new) = true →
      (is_new_content new last = true ↔
        10 * (normText new).length > 13 * (normText last).length)) ∧
    (∀ new : List Char, is_new_content new [] = true) ∧
    (∀ x : List Char, x ≠ [] → is_new_content x x = false) ∧
    is_new_content (str "Hello world, how are you") (str "Hello world") = true ∧
    is_new_content (str "Hello world") (str "Hello world.") = false := by
  have heq : ∀ new last : List Char, last ≠ [] →
      normText new = normText last → is_new_content new last = false := by
    intro new last hlast h
    simp [is_new_content, hlast, h]
  have hsub : ∀ new last : List Char, last ≠ [] →
      isSub (normText new) (normText last) = true →
      is_new_content new last = false := by
    intro new last hlast h
    by_cases he : normText new = normText last
    · exact heq new last hlast he
    · simp [is_new_content, hlast, he, h]
  refine ⟨heq, hsub, ?_, ?_, ?_, by decide, by decide⟩
  · intro new last hlast h
    by_cases he : normText new = normText last
    · rw [heq new last hlast he]
      have : (normText new).length = (normText last).length := by rw [he]
      constructor
      · intro hc; cases hc
      · intro hc; omega
    · by_cases hs : isSub (normText new) (normText last) = true
      · rw [hsub new last hlast hs]
        have h1 := isSub_length_le hs
        have h2 := isSub_length_le h
        constructor
        · intro hc; cases hc
        · intro hc; omega
      · have hs' : isSub (normText new) (normText last) = false :=
          eq_false_of_ne_true hs
        by_cases hlen : 10 * (normText new).length > 13 * (normText last).length
        · constructor
          · intro _; exact hlen
          · intro _
            simp [is_new_content, hlast, he, hs', h, hlen]
        · constructor
          · intro hc
            have hf : is_new_content new last = false := by
              simp [is_new_content, hlast, he, hs', h, hlen]
            rw [hf] at hc; cases hc
          · intro hc; exact absurd hc hlen
  · intro new
    rfl
  · intro x hx
    exact heq x x hx rfl

/-- C4 witness: the rules instantiated at non-empty concrete inputs. -/
theorem is_new_content_rules_witness :
    (str "abcd" ≠ []) ∧ is_new_content (str "abcd") (str "abcd") = false :=
  ⟨by decide, is_new_content_rules.2.2.2.2.1 (str "abcd") (by decide)⟩

/-- C5: whenever neither normalised text is a substring of the other
(so rules 1–4 do not fire), `_is_new_content` computes exactly the
spec's rules 5–8 as rendered by `dedupTailRules`: reject on a dominant
common prefix or suffix run over half of `new`'s word count, else
accept on ≥ 2 new unique words, else on a 1.5× length expansion, else
on two distinct strings each longer than three characters, else
reject. -/
theorem is_new_content_else_branch :
    ∀ new last : List Char,
      isSub (normText new) (normText last) = false →
      isSub (normText last) (normText new) = false →
      is_new_content new last = dedupTailRules new last := by
  intro new last h1 h2
  have hln : normText last ≠ [] := by
    intro h
    rw [h] at h2
    rw [isSub_nil_left] at h2
    cases h2
  have hlast : last ≠ [] := by
    intro h
    exact hln (by rw [h]; rfl)
  have hne : normText new ≠ normText last := by
    intro h
    rw [h, isSub_self] at h1
    cases h1
  simp only [is_new_content, dedupTailRules, hlast, if_false, if_neg hne,
    h1, h2, Bool.false_eq_true, ite_false]
  by_cases hg : 0 < (pySplit (normText new)).length ∧
      0 < (pySplit (normText last)).length
  · rw [if_pos hg, dedupTail_eq_rules _ _ _ _ hne]
  · rw [if_neg hg, dedupTail_eq_rules _ _ _ _ hne]
    rcases Decidable.not_and_iff_or_not.mp hg with hn | hn
    · have hnw : pySplit (normText new) = [] := by
        cases hq : pySplit (normText new) with
        | nil => rfl
        | cons a as => rw [hq] at hn; simp at hn
      rw [hnw, runStart_nil_left]
      have hre : runEnd ([] : List (List Char)) (pySplit (normText last)) = 0 := by
        simp [runEnd, runStart_nil_left]
      rw [hre]
      simp [uniqueCount]
    · have hlw : pySplit (normText last) = [] := by
        cases hq : pySplit (normText last) with
        | nil => rfl
        | cons a as => rw [hq] at hn; simp at hn
      rw [hlw, runStart_nil_right]
      have hre : runEnd (pySplit (normText new)) ([] : List (List Char)) = 0 := by
        simp [runEnd, runStart_nil_right]
      rw [hre]
      simp

/-- C5 witness: the else-branch equality at concrete inputs where
neither normalised text contains the other. -/
theorem is_new_content_else_branch_witness :
    isSub (normText (str "one two three four")) (normText (str "one two five six")) = false ∧
    isSub (normText (str "one two five six")) (normText (str "one two three four")) = false ∧
    is_new_content (str "one two three four") (str "one two five six") =
      dedupTailRules (str "one two three four") (str "one two five six") :=
  ⟨by decide, by decide,
   is_new_content_else_branch (str "one two three four") (str "one two five six")
     (by decide) (by decide)⟩

lemma mem_insertDesc {m y : CommandMatch} {l : List CommandMatch}
    (h : y ∈ insertDesc m l) : y = m ∨ y ∈ l := by
  induction l with
  | nil => simpa [insertDesc] using h
  | cons x xs ih =>
    by_cases c : m.start_pos ≤ x.start_pos
    · simp only [insertDesc, if_pos c, List.mem_cons] at h
      rcases h with h | h
      · exact Or.inr (by simp [h])
      · rcases ih h with h | h
        · exact Or.inl h
        · exact Or.inr (by simp [h])
    · simp only [insertDesc, if_neg c, List.mem_cons] at h
      rcases h with h | h
      · exact Or.inl h
      · exact Or.inr (by simpa using h)

lemma insertDesc_sorted {m : CommandMatch} {l : List CommandMatch}
    (h : List.Sorted (fun a b : CommandMatch => b.start_pos ≤ a.start_pos) l) :
    List.Sorted (fun a b : CommandMatch => b.start_pos ≤ a.start_pos)
      (insertDesc m l) := by
  induction l with
  | nil => simp [insertDesc]
  | cons x xs ih =>
    rcases List.sorted_cons.mp h with ⟨hx, hxs⟩
    by_cases c : m.start_pos ≤ x.start_pos
    · rw [insertDesc, if_pos c]
      refine List.sorted_cons.mpr ⟨?_, ih hxs⟩
      intro y hy
      rcases mem_insertDesc hy with h | h
      · exact h ▸ c
      · exact hx y h
    · rw [insertDesc, if_neg c]
      refine List.sorted_cons.mpr ⟨?_, h⟩
      intro y hy
      rcases List.mem_cons.mp hy with h | h
      · exact h ▸ Nat.le_of_not_le c
      · exact (hx y h).trans (Nat.le_of_not_le c)

lemma sortByStartDesc_sorted (ms : List CommandMatch) :
    List.Sorted (fun a b : CommandMatch => b.start_pos ≤ a.start_pos)
      (sortByStartDesc ms) := by
  have main : ∀ (l : List CommandMatch) (acc : List CommandMatch),
      List.Sorted (fun a b : CommandMatch => b.start_pos ≤ a.start_pos) acc →
      List.Sorted (fun a b : CommandMatch => b.start_pos ≤ a.start_pos)
        (l.foldl (fun acc m => insertDesc m acc) acc) := by
    intro l
    induction l with
    | nil => intro acc h; simpa using h
    | cons x xs ih =>
      intro acc h
      exact ih (insertDesc x acc) (insertDesc_sorted h)
  exact main ms [] (by simp)

/-- Command configuration of the longest-match example used by the spec
and by the repository's own test
`test_process_text_with_overlapping_commands`. -/
def overlapCfg : CmdConfig :=
  { commands := [(str "new line", str "enter"),
                 (str "new line break", str "shift+enter")] }

/-- C1 evaluation at the failing input: `process_text` performs no
overlap resolution — on "Hello new line break world" it returns two
matches whose spans [6,14) and [6,20) overlap, not the single
"new line break" match required by the claim and asserted by the
repository's test. -/
theorem process_text_keeps_overlapping_matches :
    process_text overlapCfg (str "Hello new line break world") 1 =
      [{ command := str "new line", action := str "enter", confidence := 1,
         start_pos := 6, end_pos := 14 },
       { command := str "new line break", action := str "shift+enter",
         confidence := 1, start_pos := 6, end_pos := 20 }] ∧
    (process_text overlapCfg (str "Hello new line break world") 1).length ≠ 1 := by
  exact ⟨by decide, by decide⟩

/-- Command configuration of the extraction example. -/
def extractCfg : CmdConfig :=
  { commands := [(str "new line", str "enter"),
                 (str "delete word", str "ctrl+backspace")] }

/-- C7: for a non-empty match list, `extract_clean_text` removes each
match's exact span working through the matches in descending start
order (the sort really is descending), then collapses whitespace runs
and trims; on the spec's example the result is "Hello world test". -/
theorem extract_clean_text_removes_spans :
    (∀ (t : List Char) (ms : List CommandMatch), ms ≠ [] →
      extract_clean_text t ms =
        stripStr (collapseWs ((sortByStartDesc ms).foldl removeSpan t))) ∧
    (∀ ms : List CommandMatch,
      List.Sorted (fun a b : CommandMatch => b.start_pos ≤ a.start_pos)
        (sortByStartDesc ms)) ∧
    process_text extractCfg (str "Hello new line world delete word test") 1 =
      [{ command := str "new line", action := str "enter", confidence := 1,
         start_pos := 6, end_pos := 14 },
       { command := str "delete word", action := str "ctrl+backspace",
         confidence := 1, start_pos := 21, end_pos := 32 }] ∧
    extract_clean_text (str "Hello new line world delete word test")
      (process_text extractCfg (str "Hello new line world delete word test") 1) =
      str "Hello world test" := by
  refine ⟨?_, sortByStartDesc_sorted, by decide, by decide⟩
  intro t ms h
  simp [extract_clean_text, h]

/-- C7 witness: the span-removal equation applied to a concrete
one-match list. -/
theorem extract_clean_text_removes_spans_witness :
    extract_clean_text (str "ab cd") [⟨str "cd", str "enter", 1, 3, 5⟩] =
      stripStr (collapseWs ((sortByStartDesc
        [⟨str "cd", str "enter", 1, 3, 5⟩]).foldl removeSpan (str "ab cd"))) :=
  extract_clean_text_removes_spans.1 (str "ab cd")
    [⟨str "cd", str "enter", 1, 3, 5⟩] (by decide)

/-- C10: with an empty match list `extract_clean_text` returns the
input verbatim — no whitespace collapsing and no trimming — even when
the input holds whitespace runs that normalisation would rewrite. -/
theorem extract_clean_text_nil_matches :
    (∀ t : List Char, extract_clean_text t [] = t) ∧
    extract_clean_text (str "  a   b ") [] = str "  a   b " ∧
    stripStr (collapseWs (str "  a   b ")) ≠ str "  a   b " := by
  refine ⟨?_, by decide, by decide⟩
  intro t
  simp [extract_clean_text]

/-- C2 counterexample: after `start(); stop(); start_dictation()` the
engine is Dictating while not Running.  `start_dictation` checks only
the dictating flag; after a stop the components remain constructed, so
audio capture and transcription restart and the flag is set. -/
theorem dictating_while_stopped :
    (run [Op.start, Op.stop, Op.startDict]).dictating = true ∧
    (run [Op.start, Op.stop, Op.startDict]).running = false := by
  exact ⟨by decide, by decide⟩

/-- C2, amended: over every sequence of control calls, the engine is
Dictating only when the components have been initialised — that is,
only after some successful `start()` — and `start_dictation` invoked
before any start raises and leaves the engine not Dictating.  (It does
not require Running: after `start(); stop()` a `start_dictation` makes
the engine Dictating while stopped.) -/
theorem dictating_requires_components :
    (∀ ops : List Op, (run ops).dictating = true →
      (run ops).componentsInit = true) ∧
    (∀ e : Eng, e.componentsInit = false → e.dictating = false →
      (engStartDict e).2 = true ∧ (engStartDict e).1.dictating = false) := by
  constructor
  · have inv : ∀ (ops : List Op) (e : Eng),
        (e.dictating = true → e.componentsInit = true) →
        ((ops.foldl applyOp e).dictating = true →
          (ops.foldl applyOp e).componentsInit = true) := by
      intro ops
      induction ops with
      | nil => intro e h; simpa using h
      | cons op rest ih =>
        intro e h
        refine ih (applyOp e op) ?_
        cases op <;>
          simp only [applyOp, engStart, engStop, engStartDict, engStopDict] <;>
          split_ifs <;> simp_all
    intro ops
    exact inv ops initEng (by simp [initEng])
  · intro e h1 h2
    simp [engStartDict, h1, h2]

/-- C2 witness: the invariant at a sequence that reaches Dictating. -/
theorem dictating_requires_components_witness :
    (run [Op.start, Op.startDict]).dictating = true ∧
    (run [Op.start, Op.startDict]).componentsInit = true :=
  ⟨by decide,
   dictating_requires_components.1 [Op.start, Op.startDict] (by decide)⟩

/-- C9: a second `start()` is a pure no-op — the engine stays Running
with the component initialisation performed exactly once — and `stop()`
on a stopped engine changes nothing; both paths return before any
mutation, raising nothing. -/
theorem start_stop_idempotent :
    (run [Op.start, Op.start]).running = true ∧
    (run [Op.start, Op.start]).initCount = 1 ∧
    run [Op.start, Op.start] = run [Op.start] ∧
    (∀ e : Eng, e.running = true → engStart e = e) ∧
    (∀ e : Eng, e.running = false → engStop e = e) := by
  refine ⟨by decide, by decide, by decide, ?_, ?_⟩
  · intro e h
    simp [engStart, h]
  · intro e h
    simp [engStop, h]

/-- C9 witness: the no-op equations at concrete states. -/
theorem start_stop_idempotent_witness :
    engStart (run [Op.start]) = run [Op.start] ∧ engStop initEng = initEng :=
  ⟨start_stop_idempotent.2.2.2.1 (run [Op.start]) (by decide),
   start_stop_idempotent.2.2.2.2 initEng (by decide)⟩

lemma execCmd_dispatch (injP : Bool) (e : Eng) (a : List Char) :
    (execCmd injP e a).2 =
      (if a = str "STOP_DICTATION" then []
       else if a = str "START_DICTATION" then []
       else if injP then [a] else []) := by
  simp only [execCmd, engStartDict]
  split_ifs <;> simp_all

lemma execAll_dispatch_const (injP : Bool) (ms : List CommandMatch) :
    ∀ e1 e2 : Eng, (execAll injP e1 ms).2 = (execAll injP e2 ms).2 := by
  induction ms with
  | nil => intro e1 e2; rfl
  | cons m rest ih =>
    intro e1 e2
    simp only [execAll, execCmd_dispatch]
    rw [ih (execCmd injP e1 m.action).1 (execCmd injP e2 m.action).1]

lemma execAll_totalChars (injP : Bool) (ms : List CommandMatch) :
    ∀ e : Eng, (execAll injP e ms).1.totalChars = e.totalChars := by
  induction ms with
  | nil => intro e; rfl
  | cons m rest ih =>
    intro e
    simp only [execAll]
    rw [ih]
    simp only [execCmd, engStartDict, engStopDict]
    split_ifs <;> rfl

lemma onTranscription_dispatch (ccfg : CmdConfig) (injP : Bool) (e : Eng)
    (text : List Char) :
    (onTranscription ccfg injP e text).2.2 =
      (execAll injP { e with totalTranscriptions := e.totalTranscriptions + 1 }
        (process_text ccfg (cleanTranscriptionText text) 1)).2 := by
  simp only [onTranscription]
  split <;> rfl

/-- C8: `stop_dictation` only clears the Dictating flag — every other
field, in particular the running state of audio capture and
transcription, is untouched; the dispatched command actions of a
recognised-text event do not depend on the Dictating flag; and the
clean-text injection (together with its character-count update) happens
exactly when the flag — as it stands after the utterance's commands,
including any dictation toggles, have executed — is set, the extracted
clean text is non-empty, and a keystroke injector is configured. -/
theorem stop_dictation_frame_and_injection :
    (∀ e : Eng, engStopDict e = { e with dictating := false }) ∧
    (∀ (ccfg : CmdConfig) (injP : Bool) (e : Eng) (text : List Char) (b : Bool),
      (onTranscription ccfg injP { e with dictating := b } text).2.2 =
        (onTranscription ccfg injP e text).2.2) ∧
    (∀ (ccfg : CmdConfig) (injP : Bool) (e : Eng) (text : List Char),
      ((onTranscription ccfg injP e text).2.1 ≠ [] ↔
        ((execAll injP
            { e with totalTranscriptions := e.totalTranscriptions + 1 }
            (process_text ccfg (cleanTranscriptionText text) 1)).1.dictating =
              true ∧
          cleanOf ccfg text ≠ [] ∧ injP = true)) ∧
      ((onTranscription ccfg injP e text).1.totalChars ≠ e.totalChars ↔
        (onTranscription ccfg injP e text).2.1 ≠ [])) := by
  refine ⟨?_, ?_, ?_⟩
  · intro e
    cases e with
    | mk r d ci ar tr ic er tt tc tch li =>
      by_cases h : d = true <;> simp [engStopDict, h]
  · intro ccfg injP e text b
    rw [onTranscription_dispatch, onTranscription_dispatch]
    exact execAll_dispatch_const injP _ _ _
  · intro ccfg injP e text
    have hchars := execAll_totalChars injP
      (process_text ccfg (cleanTranscriptionText text) 1)
      { e with totalTranscriptions := e.totalTranscriptions + 1 }
    constructor
    · simp only [onTranscription, cleanOf]
      split
      · rename_i hcond
        simp only [Bool.and_eq_true, Bool.not_eq_true',
          List.isEmpty_eq_false] at hcond
        exact iff_of_true (by simp) ⟨hcond.1.1, hcond.1.2, hcond.2⟩
      · rename_i hcond
        refine iff_of_false (by simp) ?_
        rintro ⟨hd, hc, hj⟩
        subst hj
        exact hcond (by simp [hd, hc])
    · simp only [onTranscription, cleanOf]
      split
      · rename_i hcond
        simp only [Bool.and_eq_true, Bool.not_eq_true',
          List.isEmpty_eq_false] at hcond
        refine iff_of_true ?_ (by simp)
        simp only [hchars]
        have hlen : (withLeadSpace (execAll injP
            { e with totalTranscriptions := e.totalTranscriptions + 1 }
            (process_text ccfg (cleanTranscriptionText text) 1)).1.lastInjected
            (extract_clean_text (cleanTranscriptionText text)
              (process_text ccfg (cleanTranscriptionText text) 1))).length ≠ 0 := by
          simp only [withLeadSpace]
          split
          · simp
          · simpa [List.length_eq_zero] using hcond.1.2
        omega
      · exact iff_of_false (by simp [hchars]) (by simp)

lemma timeoutStep_clears (cfg : TransConfig) (or : SegOracle) (s : SegState) :
    (timeoutStep cfg or s).1.buffer = [] ∧
    (timeoutStep cfg or s).1.silence = [] := by
  simp only [timeoutStep]
  split
  · split
    · exact ⟨rfl, rfl⟩
    · split_ifs <;> exact ⟨rfl, rfl⟩
  · exact ⟨rfl, rfl⟩

lemma flushPhase_skip (or : SegOracle) (s : SegState) (subs : List (List ℕ))
    (emits : List (List Char)) (h : (s.buffer.length : ℤ) ≤ maxBytes) :
    flushPhase or s subs emits = (s, subs, emits) := by
  simp only [flushPhase]
  rw [if_neg (not_lt.mpr h)]

lemma feedStep_eq (cfg : TransConfig) (or : SegOracle) (s : SegState)
    (chunk : List ℕ) :
    feedStep cfg or s chunk =
      flushPhase or (silencePhase cfg or s chunk).1
        (silencePhase cfg or s chunk).2.1 (silencePhase cfg or s chunk).2.2 :=
  rfl

lemma flushPhase_skip_buffer (or : SegOracle) (s : SegState)
    (subs : List (List ℕ)) (emits : List (List Char))
    (h : (s.buffer.length : ℤ) ≤ maxBytes) :
    (flushPhase or s subs emits).1.buffer = s.buffer := by
  rw [flushPhase_skip or s subs emits h]

lemma silencePhase_buffer (cfg : TransConfig) (or : SegOracle) (s : SegState)
    (chunk : List ℕ)
    (hsil : or.isSilent
      (if ((s.silence ++ chunk).length : ℤ) > silBytes cfg then
        sliceNegFrom (s.silence ++ chunk) (silBytes cfg)
       else s.silence ++ chunk) = true)
    (hmin : ((s.buffer ++ chunk).length : ℤ) > minBytes cfg) :
    (silencePhase cfg or s chunk).1.buffer =
      sliceNegFrom (s.buffer ++ chunk) (overlapBytes cfg) := by
  simp only [silencePhase, hsil, if_pos hmin, if_true]
  repeat' split
  all_goals rfl

/-- Segmenter configuration with tiny durations for the timeout
counterexample: silence window 1 byte, minimum utterance 4 bytes,
overlap seed 2 bytes. -/
def tinyCfg : TransConfig :=
  { pause_duration := mkRat 1 32000
    min_utterance_duration := mkRat 1 8000
    overlap_duration := mkRat 1 16000 }

/-- Oracle for the timeout counterexample: never silent, constant
transcription result. -/
def tinyOracle : SegOracle :=
  { isSilent := fun _ => false
    transcribe := fun _ => some (str "hi there") }

/-- Buffer state at the read timeout: six bytes of audio, above the
four-byte minimum, with a one-byte silence window. -/
def tinyState : SegState := ⟨[1, 2, 3, 4, 5, 6], [9], []⟩

/-- C3 counterexample: at a read timeout with the buffer above the
minimum duration, the code submits the ENTIRE buffer (case 1 would
submit the buffer minus the one-byte trailing-silence window, here the
first five bytes) and clears the buffer to empty, whereas the case-1
behaviour the claim promises would retain the two-byte overlap seed
[5, 6]. -/
theorem timeout_discards_overlap_seed :
    (tinyState.buffer.length : ℤ) > minBytes tinyCfg ∧
    (timeoutStep tinyCfg tinyOracle tinyState).1.buffer = [] ∧
    sliceNegFrom tinyState.buffer (overlapBytes tinyCfg) = [5, 6] ∧
    (timeoutStep tinyCfg tinyOracle tinyState).2.1 = [[1, 2, 3, 4, 5, 6]] ∧
    sliceToNeg tinyState.buffer tinyState.silence.length = [1, 2, 3, 4, 5] := by
  exact ⟨by decide, by decide, by decide, by decide, by decide⟩

/-- C3, amended: on a read timeout with a non-empty buffer strictly
longer than the minimum-utterance byte count, the segmenter submits the
entire buffer (trailing silence included) to the recognizer and applies
the `_is_new_content` gate (without the silence-case correction
branch); below or at the minimum the buffer is discarded silently with
no recognizer call; in every timeout case both the UtteranceBuffer and
the SilenceWindow are cleared to empty — no overlap seed is retained. -/
theorem timeout_step_behavior :
    (∀ (cfg : TransConfig) (or : SegOracle) (s : SegState),
      (timeoutStep cfg or s).1.buffer = [] ∧
      (timeoutStep cfg or s).1.silence = []) ∧
    (∀ (cfg : TransConfig) (or : SegOracle) (s : SegState),
      s.buffer ≠ [] ∧ (s.buffer.length : ℤ) > minBytes cfg →
      (timeoutStep cfg or s).2.1 = [s.buffer]) ∧
    (∀ (cfg : TransConfig) (or : SegOracle) (s : SegState),
      ¬(s.buffer ≠ [] ∧ (s.buffer.length : ℤ) > minBytes cfg) →
      timeoutStep cfg or s = (⟨[], [], s.last⟩, [], [])) ∧
    (∀ (cfg : TransConfig) (or : SegOracle) (s : SegState) (r : List Char),
      or.transcribe s.buffer = some r →
      s.buffer ≠ [] ∧ (s.buffer.length : ℤ) > minBytes cfg →
      (timeoutStep cfg or s).2.2 =
        (if stripStr r ≠ [] ∧ is_new_content (stripStr r) s.last = true then
          [stripStr r]
         else [])) := by
  refine ⟨timeoutStep_clears, ?_, ?_, ?_⟩
  · intro cfg or s h
    simp only [timeoutStep, if_pos h]
    split
    · rfl
    · split_ifs <;> rfl
  · intro cfg or s h
    simp only [timeoutStep, if_neg h]
  · intro cfg or s r hr h
    simp only [timeoutStep, if_pos h, hr]
    split_ifs <;> simp_all

/-- C3 witness: the amended behaviour at concrete states above and
below the minimum. -/
theorem timeout_step_behavior_witness :
    (timeoutStep tinyCfg tinyOracle tinyState).2.1 = [tinyState.buffer] ∧
    timeoutStep tinyCfg tinyOracle ⟨[1], [2], str "x"⟩ =
      (⟨[], [], str "x"⟩, [], []) ∧
    (timeoutStep tinyCfg tinyOracle tinyState).2.2 =
      (if stripStr (str "hi there") ≠ [] ∧
          is_new_content (stripStr (str "hi there")) tinyState.last = true then
        [stripStr (str "hi there")]
       else []) :=
  ⟨timeout_step_behavior.2.1 tinyCfg tinyOracle tinyState ⟨by decide, by decide⟩,
   timeout_step_behavior.2.2.1 tinyCfg tinyOracle ⟨[1], [2], str "x"⟩ (by decide),
   timeout_step_behavior.2.2.2 tinyCfg tinyOracle tinyState (str "hi there")
     (by decide) ⟨by decide, by decide⟩⟩

/-- Default segmenter configuration: 1 s silence window, 0.7 s minimum
utterance, 0.2 s overlap. -/
def defaultCfg : TransConfig := {}

/-- Oracle for the forced-flush counterexample: always silent, constant
transcription result. -/
def flushOracle : SegOracle :=
  { isSilent := fun _ => true
    transcribe := fun _ => some (str "hello") }

/-- State one chunk before crossing the 10 s cap: a 320000-byte buffer
and a full 32000-byte silence window. -/
def fullState : SegState :=
  ⟨List.replicate 320000 0, List.replicate 32000 0, []⟩

/-- The 100 ms chunk that pushes the buffer past the cap. -/
def nextChunk : List ℕ := List.replicate 3200 0

/-- C6 counterexample: appending a chunk makes the buffer exceed the
maximum-duration byte count (323200 > 320000), yet because a silence
boundary fires in the same iteration the buffer is NOT cleared — it
retains the 6400-byte overlap seed — and only the buffer minus the
trailing silence window was submitted, not the entire buffer. -/
theorem forced_flush_not_entire_buffer :
    ((fullState.buffer ++ nextChunk).length : ℤ) > maxBytes ∧
    (feedStep defaultCfg flushOracle fullState nextChunk).1.buffer ≠ [] := by
  have hblen : (fullState.buffer ++ nextChunk).length = 323200 := by
    rw [show fullState.buffer = List.replicate 320000 0 from rfl,
        show nextChunk = List.replicate 3200 0 from rfl,
        List.length_append, List.length_replicate, List.length_replicate]
  have hov : overlapBytes defaultCfg = 6400 := by decide
  have hmin : minBytes defaultCfg = 22400 := by decide
  have hseed : (sliceNegFrom (fullState.buffer ++ nextChunk)
      (overlapBytes defaultCfg)).length = 6400 := by
    rw [hov, sliceNegFrom, if_neg (by decide), List.length_drop, hblen]
    decide
  have hbuf : (silencePhase defaultCfg flushOracle fullState nextChunk).1.buffer =
      sliceNegFrom (fullState.buffer ++ nextChunk) (overlapBytes defaultCfg) :=
    silencePhase_buffer _ _ _ _ rfl (by rw [hblen, hmin]; norm_num)
  have hle : (((silencePhase defaultCfg flushOracle fullState
      nextChunk).1.buffer.length : ℕ) : ℤ) ≤ maxBytes := by
    rw [hbuf, hseed]
    norm_num [maxBytes]
  have hne : (silencePhase defaultCfg flushOracle fullState
      nextChunk).1.buffer ≠ [] := by
    rw [hbuf]
    apply List.ne_nil_of_length_pos
    rw [hseed]
    norm_num
  constructor
  · rw [hblen]
    norm_num [maxBytes]
  · rw [feedStep_eq, flushPhase_skip_buffer flushOracle
      (silencePhase defaultCfg flushOracle fullState nextChunk).1
      (silencePhase defaultCfg flushOracle fullState nextChunk).2.1
      (silencePhase defaultCfg flushOracle fullState nextChunk).2.2 hle]
    exact hne

/-- C6, amended: the forced flush triggers on the buffer as it stands
after the silence-boundary handling — whenever that buffer still
exceeds the 10 s byte cap, the entire current buffer is submitted and
both buffers are cleared — so at the end of every loop iteration
(chunk arrival or read timeout) the UtteranceBuffer holds at most the
maximum-duration byte count.  When a silence boundary fires in the same
iteration that crosses the cap, the submission of that iteration is the
silence-boundary one and the buffer keeps the small overlap seed
instead of being cleared. -/
theorem buffer_bounded_each_iteration :
    (∀ (cfg : TransConfig) (or : SegOracle) (s : SegState) (chunk : List ℕ),
      ((feedStep cfg or s chunk).1.buffer.length : ℤ) ≤ maxBytes) ∧
    (∀ (or : SegOracle) (s : SegState) (subs : List (List ℕ))
        (emits : List (List Char)),
      (s.buffer.length : ℤ) > maxBytes →
      (flushPhase or s subs emits).1.buffer = [] ∧
      (flushPhase or s subs emits).1.silence = [] ∧
      (flushPhase or s subs emits).2.1 = subs ++ [s.buffer]) ∧
    (∀ (cfg : TransConfig) (or : SegOracle) (s : SegState),
      ((timeoutStep cfg or s).1.buffer.length : ℤ) ≤ maxBytes) := by
  have hflush : ∀ (or : SegOracle) (s : SegState) (subs : List (List ℕ))
      (emits : List (List Char)),
      (s.buffer.length : ℤ) > maxBytes →
      (flushPhase or s subs emits).1.buffer = [] ∧
      (flushPhase or s subs emits).1.silence = [] ∧
      (flushPhase or s subs emits).2.1 = subs ++ [s.buffer] := by
    intro or s subs emits h
    simp only [flushPhase, if_pos h]
    split
    · exact ⟨rfl, rfl, rfl⟩
    · split_ifs <;> exact ⟨rfl, rfl, rfl⟩
  refine ⟨?_, hflush, ?_⟩
  · intro cfg or s chunk
    rw [feedStep_eq]
    by_cases h : ((silencePhase cfg or s chunk).1.buffer.length : ℤ) > maxBytes
    · rw [(hflush or _ _ _ h).1]
      simp [maxBytes]
    · rw [flushPhase_skip _ _ _ _ (not_lt.mp h)]
      exact not_lt.mp h
  · intro cfg or s
    rw [(timeoutStep_clears cfg or s).1]
    simp [maxBytes]

/-- C6 witness: the flush characterisation at a state just past the
cap. -/
theorem buffer_bounded_each_iteration_witness :
    (flushPhase flushOracle ⟨List.replicate 320001 0, [7], str "x"⟩ [] []).1.buffer
      = [] ∧
    (flushPhase flushOracle ⟨List.replicate 320001 0, [7], str "x"⟩ [] []).2.1 =
      [] ++ [List.replicate 320001 0] := by
  have h := buffer_bounded_each_iteration.2.1 flushOracle
    ⟨List.replicate 320001 0, [7], str "x"⟩ [] []
    (by
      rw [show (⟨List.replicate 320001 0, [7], str "x"⟩ : SegState).buffer =
            List.replicate 320001 0 from rfl,
          List.length_replicate]
      norm_num [maxBytes])
  exact ⟨h.1, h.2.2⟩

end Whisprd
